import Mathlib

set_option maxRecDepth 4000

/-!
Verification development for the audio-to-PDF transcription service in
`src/main.py`.  The single endpoint `audio_to_pdf` stages the upload in a
temporary file, decodes it with `soundfile`, mixes multi-channel audio to
mono with `ndarray.mean(axis=1)`, feeds the raw sample bytes to a Vosk
`KaldiRecognizer`, strips the recognized text, and renders it (or the
placeholder "No speech detected.") with pyfpdf's `multi_cell`, finally
encoding `pdf.output(dest="S")` as Latin-1.

The embedding below models the endpoint's own logic exactly, and the
relevant behaviour of its library dependencies (pyfpdf 1.7.2's default A4
geometry, its `multi_cell` word-wrap loop and `cell` page-break rule, its
Latin-1 serialization with the `/CreationDate` stamp from `datetime.now()`;
soundfile decoding and the Vosk engine are kept abstract as function
parameters).  Real arithmetic is modelled exactly over `ℚ`.
-/

/-- Scale factor `k` for unit "mm" in pyfpdf: `72 / 25.4`. -/
def kScale : ℚ := 72 / (254 / 10)

/-- Page width of an A4 portrait page in mm. -/
def pageW : ℚ := 210

/-- Page height of an A4 portrait page in mm. -/
def pageH : ℚ := 297

/-- Default page margin of pyfpdf (1 cm): `28.35 / k`. -/
def pageMargin : ℚ := (2835 / 100) / kScale

/-- Interior cell margin of pyfpdf (1 mm): `margin / 10`. -/
def cMargin : ℚ := pageMargin / 10

/-- Auto-page-break bottom margin: `2 * margin`. -/
def bMargin : ℚ := 2 * pageMargin

/-- The `y` ordinate beyond which `cell` starts a new page: `h - b_margin`. -/
def pageBreakTrigger : ℚ := pageH - bMargin

/-- Font size in points set by `pdf.set_font("Arial", size=12)`. -/
def fontSizePt : ℚ := 12

/-- Font size in user units: `font_size_pt / k`. -/
def fontSize : ℚ := fontSizePt / kScale

/-- Line height passed to `pdf.multi_cell(0, 10, ...)`. -/
def lineH : ℚ := 10

/-- Effective cell width for `multi_cell(0, ...)`: `w - r_margin - x` with
`x = l_margin` at the start of the page. -/
def cellW : ℚ := pageW - pageMargin - pageMargin

/-- Maximum accumulated character width per wrapped line:
`(w - 2*c_margin) * 1000 / font_size`. -/
def wmaxQ : ℚ := (cellW - 2 * cMargin) * 1000 / fontSize

/-- Executable form of the line-overflow test `l > wmax` of `multi_cell`:
`wmaxQ` is exactly `11279835 / 254`, so for an integer accumulated width
`l` the test is the integer comparison below (certified against the exact
geometry by `overWmax_iff`). -/
def overWmax (l : ℕ) : Bool := 11279835 < 254 * l

/-- Top margin in units of 1/800 mm (exactly `800 * pageMargin`, see
`tMarginU_eq`). -/
def tMarginU : ℕ := 8001

/-- Cell line height in units of 1/800 mm (exactly `800 * lineH`). -/
def lineHU : ℕ := 8000

/-- Page break trigger ordinate in units of 1/800 mm (exactly
`800 * pageBreakTrigger`, see `pageBreakTriggerU_eq`). -/
def pageBreakTriggerU : ℕ := 221598

/-- Executable form of the page-break test `y + h > page_break_trigger`
of `cell`, on ordinates in units of 1/800 mm (certified against the exact
geometry by `pageBreakHit_iff`). -/
def pageBreakHit (yU : ℕ) : Bool := pageBreakTriggerU < yU + lineHU

/-- Character widths (per mille) of the Arial/Helvetica core font for the
printable ASCII range, keyed by code point, as in the fpdf dependency's
width table. -/
def cwAscii (n : ℕ) : ℕ :=
  match n with
  | 32 | 33 | 44 | 46 | 47 | 58 | 59 | 73 | 91 | 92 | 93 | 102 | 116 => 278
  | 34 => 355
  | 35 | 36 | 63 | 95 | 48 | 49 | 50 | 51 | 52 | 53 | 54 | 55 | 56 | 57
  | 76 | 97 | 98 | 100 | 101 | 103 | 104 | 110 | 111 | 112 | 113 | 117 => 556
  | 37 => 889
  | 38 | 65 | 66 | 69 | 75 | 80 | 83 | 86 | 88 | 89 => 667
  | 39 => 191
  | 40 | 41 | 45 | 96 | 114 => 333
  | 42 => 389
  | 43 | 60 | 61 | 62 | 126 => 584
  | 64 => 1015
  | 67 | 68 | 72 | 78 | 82 | 85 | 119 => 722
  | 70 | 84 | 90 => 611
  | 71 | 79 | 81 => 778
  | 74 | 99 | 107 | 115 | 118 | 120 | 121 | 122 => 500
  | 77 | 109 => 833
  | 87 => 944
  | 94 => 469
  | 105 | 106 | 108 => 222
  | 123 | 125 => 334
  | 124 => 260
  | _ => 0

/-- Character width lookup used by `multi_cell`, modelling the library's
`cw.get(c, 0)`: exact on the ASCII range (control characters have width
278 in the table); widths of non-ASCII Latin-1 glyphs are abstracted to a
nominal 556; characters absent from the Latin-1 table get 0, which is what
`dict.get(c, 0)` returns. -/
def cwHelvetica (c : Char) : ℕ :=
  let n := c.toNat
  if n < 32 then 278
  else if n ≤ 126 then cwAscii n
  else if n ≤ 255 then 556
  else 0

/-- Substring `substr(s, j, n)` of pyfpdf, as a `String` over a character
list. -/
def substrStr (s : List Char) (j n : ℕ) : String := String.mk ((s.drop j).take n)

/-- Fuel-indexed transcription of the character loop of pyfpdf's
`multi_cell` (the part that decides line breaks): `i` is the scan index,
`j` the start of the current line, `sep` the index of the last space seen
on the current line, `l` the accumulated width, `acc` the emitted lines.
On fuel exhaustion (unreachable for fuel `2*|s|+1`) the remaining text is
emitted as one line, like the loop's final cell. -/
def mcGo : ℕ → List Char → ℕ → ℕ → ℕ → Option ℕ → ℕ → List String → List String
  | 0, s, nb, _, j, _, _, acc => acc ++ [substrStr s j (nb - j)]
  | Nat.succ fuel, s, nb, i, j, sep, l, acc =>
    if i < nb then
      if s.getD i ' ' = '\n' then
        mcGo fuel s nb (i + 1) (i + 1) none 0 (acc ++ [substrStr s j (i - j)])
      else
        if overWmax (l + cwHelvetica (s.getD i ' ')) then
          match (if s.getD i ' ' = ' ' then some i else sep : Option ℕ) with
          | none =>
            if i = j then
              mcGo fuel s nb (i + 1) (i + 1) none 0 (acc ++ [substrStr s j (i + 1 - j)])
            else
              mcGo fuel s nb i i none 0 (acc ++ [substrStr s j (i - j)])
          | some sp =>
            mcGo fuel s nb (sp + 1) (sp + 1) none 0 (acc ++ [substrStr s j (sp - j)])
        else
          mcGo fuel s nb (i + 1) j (if s.getD i ' ' = ' ' then some i else sep)
            (l + cwHelvetica (s.getD i ' ')) acc
    else
      acc ++ [substrStr s j (nb - j)]

/-- Wrapped lines produced by `pdf.multi_cell(0, 10, txt)`: carriage
returns are removed, a trailing newline is ignored, then the width-driven
line-break loop runs. -/
def multiCellLines (txt : String) : List String :=
  let s := txt.data.filter (fun c => c ≠ '\r')
  let n0 := s.length
  let nb := if 0 < n0 ∧ s.getLast? = some '\n' then n0 - 1 else n0
  mcGo (2 * n0 + 1) s nb 0 0 none 0 []

/-- Page-accumulation loop modelling pyfpdf's `cell` page-break rule: each
line is printed as a cell of height `lineH`; before printing, if
`y + h > page_break_trigger` a new page is started at `y = t_margin`.
The ordinate `yU` is carried in units of 1/800 mm, in which all reachable
values are integers. -/
def pagGo : List String → ℕ → List String → List (List String) → List (List String)
  | [], _, cur, done => done ++ [cur]
  | line :: rest, yU, cur, done =>
    if pageBreakHit yU then
      pagGo rest (tMarginU + lineHU) [line] (done ++ [cur])
    else
      pagGo rest (yU + lineHU) (cur ++ [line]) done

/-- Distribution of the wrapped lines over pages, starting from the single
page created by `pdf.add_page()` with `y = t_margin`. -/
def paginate (lines : List String) : List (List String) :=
  pagGo lines tMarginU [] []

/-- Number of wrapped lines that fit on one page with the fixed geometry
(derived from the break rule in `pageBreakHit_linesPerPage` below). -/
def linesPerPage : ℕ := 26

/-- Fixed placeholder phrase rendered for an empty transcript
(`text if text else "No speech detected."`). -/
def placeholderText : String := "No speech detected."

/-- Text actually laid out by `pdf.multi_cell`: Python's truthiness test
`text if text else "No speech detected."` on the (already stripped)
transcript. -/
def shownText (text : String) : String :=
  if text = "" then placeholderText else text

/-- Pages of the rendered document for a given (stripped) transcript. -/
def documentPages (text : String) : List (List String) :=
  paginate (multiCellLines (shownText text))

/-- Escaping applied by pyfpdf to text placed in a page content stream
(`_escape`: backslash, parentheses and carriage return). -/
def escapeChar (c : Char) : List Char :=
  if c = '\\' then ['\\', '\\']
  else if c = ')' then ['\\', ')']
  else if c = '(' then ['\\', '(']
  else if c = '\r' then ['\\', 'r']
  else [c]

/-- Characters of one wrapped line as placed in the content stream. -/
def lineChars (line : String) : List Char :=
  (line.data.map escapeChar).flatten

/-- Content stream of one page: each wrapped line is shown with a text
operator. -/
def pageStream (page : List String) : List Char :=
  "BT /F1 12.00 Tf\n".data
    ++ (page.map (fun ln => "(".data ++ lineChars ln ++ ") Tj\n".data)).flatten
    ++ "ET\n".data

/-- Characters of the serialized document, modelling the buffer built by
`pdf.output(dest="S")`: a header, one content stream per page, and the
info dictionary, whose `/CreationDate` embeds the `datetime.now()` value
captured at serialization time (passed here explicitly as `now`), followed
by the trailer.  Byte offsets of the cross-reference table are abstracted
away; every modelled part is ASCII except the interpolated line and
timestamp characters. -/
def pdfDocChars (pages : List (List String)) (now : String) : List Char :=
  "%PDF-1.3\n".data
    ++ (pages.map pageStream).flatten
    ++ "/Producer (PyFPDF 1.7.2 http://pyfpdf.googlecode.com/)\n/CreationDate (D:".data
    ++ now.data
    ++ ")\ntrailer\n%%EOF\n".data

/-- Failure of document serialization. -/
inductive RenderError where
  | unicodeEncodeError
deriving DecidableEq, Repr

/-- Latin-1 encoding of the serialized document, as in
`pdf.output(dest="S").encode("latin1")`: every character must have a code
point at most 255, otherwise Python raises `UnicodeEncodeError`. -/
def encodeLatin1 (cs : List Char) : Except RenderError (List ℕ) :=
  if _h : ∀ c ∈ cs, c.toNat ≤ 255 then .ok (cs.map Char.toNat)
  else .error .unicodeEncodeError

/-- Decidable equality of render results, for concrete evaluations. -/
instance : DecidableEq (Except RenderError (List ℕ)) := fun a b =>
  match a, b with
  | .ok x, .ok y =>
    if h : x = y then isTrue (by rw [h]) else isFalse (by intro hc; cases hc; exact h rfl)
  | .error x, .error y =>
    if h : x = y then isTrue (by rw [h]) else isFalse (by intro hc; cases hc; exact h rfl)
  | .ok _, .error _ => isFalse (by intro hc; cases hc)
  | .error _, .ok _ => isFalse (by intro hc; cases hc)

/-- Rendering stage of the endpoint (lines 152–158 of `src/main.py`):
lay out the stripped transcript (or the placeholder) into pages and
serialize to Latin-1 bytes; `now` is the `datetime.now()` timestamp the
library stamps into the document. -/
def renderDocument (text now : String) : Except RenderError (List ℕ) :=
  encodeLatin1 (pdfDocChars (documentPages text) now)

/-- Python whitespace code points stripped by `str.strip()`. -/
def pyWhitespaceCodes : List ℕ :=
  [9, 10, 11, 12, 13, 28, 29, 30, 31, 32, 133, 160, 5760,
   8192, 8193, 8194, 8195, 8196, 8197, 8198, 8199, 8200, 8201, 8202,
   8232, 8233, 8239, 8287, 12288]

/-- Whitespace test of Python's `str.strip()`. -/
def pyIsSpace (c : Char) : Bool := pyWhitespaceCodes.contains c.toNat

/-- Python's `str.strip()`: remove whitespace from both ends. -/
def pyStrip (s : String) : String :=
  String.mk (((s.data.dropWhile pyIsSpace).reverse.dropWhile pyIsSpace).reverse)

/-- Decoded audio as returned by `sf.read`: a one-dimensional array for a
mono file, a (frames × channels) two-dimensional array otherwise.  Sample
values are modelled exactly over `ℚ`. -/
inductive AudioArray where
  | mono (samples : List ℚ)
  | multi (ch : ℕ) (frames : List (List ℚ))
deriving DecidableEq

/-- Successful result of `sf.read`: the sample array and the sample rate. -/
structure DecodeOk where
  audio : AudioArray
  samplerate : ℕ
deriving DecidableEq

/-- Mono mixdown step (lines 138–139): if the array is two-dimensional,
replace it by `audio.mean(axis=1)`, the arithmetic mean of each frame's
channel values (numpy divides by the channel count, the second dimension
of the rectangular array). -/
def ensureMono : AudioArray → List ℚ
  | .mono samples => samples
  | .multi ch frames => frames.map (fun f => f.sum / (ch : ℚ))

/-- Mono sample buffer handed to the recognizer stage. -/
structure SampleBuffer where
  samples : List ℚ
  samplerate : ℕ
deriving DecidableEq

/-- Normalization of a decoded file: mono mixdown, with the sample rate
passed through unchanged (no resampling). -/
def normalizeAudio (d : DecodeOk) : SampleBuffer :=
  ⟨ensureMono d.audio, d.samplerate⟩

/-- Numeric sample format of a byte buffer. -/
inductive Dtype where
  | float64
  | int16
  | int32
deriving DecidableEq

/-- Raw in-memory serialization of a sample array (`ndarray.tobytes()`),
modelled as the pair of the element dtype and the sample values — the
actual byte image is an injective function of this pair. -/
structure PcmBytes where
  dtype : Dtype
  samples : List ℚ
deriving DecidableEq

/-- Byte buffer passed to `recognizer.AcceptWaveform`: `audio.tobytes()`
on the decoded (and possibly mixed-down) array, whose dtype is float64
because `sf.read` is called without a `dtype` argument. -/
def recognizerInput (d : DecodeOk) : PcmBytes :=
  ⟨Dtype.float64, (normalizeAudio d).samples⟩

/-- Errors of the three pipeline stages. -/
inductive PipelineError where
  | decodeError
  | recognitionError
  | renderError
deriving DecidableEq, Repr

/-- Filesystem state threaded through a request: the set of temporary
files currently on disk and a fresh-name counter. -/
structure FsState where
  tmpFiles : List ℕ
  nextName : ℕ
deriving DecidableEq

/-- Abstract decoder (`sf.read` over the staged file's bytes): fails on a
malformed container. -/
def Decoder : Type := List ℕ → Except Unit DecodeOk

/-- Abstract recognition engine: `KaldiRecognizer(vosk_model, samplerate)`
followed by `SetWords`, `AcceptWaveform` and `FinalResult`, returning the
`"text"` field of the final JSON result (or failing with a
`RecognitionError`). -/
def Engine : Type := ℕ → PcmBytes → Except Unit String

/-- Transcription of the endpoint `audio_to_pdf` (lines 127–164 of
`src/main.py`) as explicit state passing over `FsState`:
a temporary file is created with `delete=False` and the upload written to
it; `sf.read` decodes it; a failure of any stage propagates as the raised
exception, aborting the request; `os.remove(tmp_path)` runs only after
recognition succeeded; then the document is rendered and serialized. -/
def audio_to_pdf (sf_read : Decoder) (engine : Engine) (now : String)
    (fileBytes : List ℕ) (s : FsState) :
    Except PipelineError (List ℕ) × FsState :=
  let tmp_path := s.nextName
  let s1 : FsState := ⟨s.tmpFiles ++ [tmp_path], s.nextName + 1⟩
  match sf_read fileBytes with
  | .error _ => (.error .decodeError, s1)
  | .ok d =>
    let buf := normalizeAudio d
    match engine buf.samplerate (recognizerInput d) with
    | .error _ => (.error .recognitionError, s1)
    | .ok raw =>
      let text := pyStrip raw
      let s2 : FsState := ⟨s1.tmpFiles.filter (fun p => p != tmp_path), s1.nextName⟩
      match renderDocument text now with
      | .error _ => (.error .renderError, s2)
      | .ok bytes => (.ok bytes, s2)

/-!
Certification of the integer-unit tests against the exact rational
geometry, followed by the layout, serialization and pipeline lemmas, and
the claim theorems.
-/

/-- Exact value of the maximum line width. -/
theorem wmaxQ_eq : wmaxQ = 11279835 / 254 := by
  norm_num [wmaxQ, cellW, cMargin, pageMargin, kScale, fontSize, fontSizePt, pageW]

/-- Value of the top margin in 1/800 mm units. -/
theorem tMarginU_eq : (tMarginU : ℚ) = 800 * pageMargin := by
  norm_num [tMarginU, pageMargin, kScale]

/-- Value of the line height in 1/800 mm units. -/
theorem lineHU_eq : (lineHU : ℚ) = 800 * lineH := by
  norm_num [lineHU, lineH]

/-- Value of the page break trigger in 1/800 mm units. -/
theorem pageBreakTriggerU_eq : (pageBreakTriggerU : ℚ) = 800 * pageBreakTrigger := by
  norm_num [pageBreakTriggerU, pageBreakTrigger, pageH, bMargin, pageMargin, kScale]

/-- The integer overflow test agrees with the source's `l > wmax` over the
exact geometry. -/
theorem overWmax_iff (l : ℕ) : overWmax l = true ↔ wmaxQ < (l : ℚ) := by
  rw [wmaxQ_eq, div_lt_iff₀ (by norm_num : (0 : ℚ) < 254)]
  simp only [overWmax, decide_eq_true_eq]
  rw [show ((l : ℚ) * 254) = ((254 * l : ℕ) : ℚ) by push_cast; ring]
  norm_cast

/-- The integer page-break test agrees with the source's
`y + h > page_break_trigger` over the exact geometry. -/
theorem pageBreakHit_iff (yU : ℕ) :
    pageBreakHit yU = true ↔ pageBreakTrigger < (yU : ℚ) / 800 + lineH := by
  simp only [pageBreakHit, decide_eq_true_eq]
  constructor
  · intro h
    have h' : ((pageBreakTriggerU : ℚ)) < ((yU + lineHU : ℕ) : ℚ) := by exact_mod_cast h
    rw [pageBreakTriggerU_eq] at h'
    push_cast [lineHU_eq] at h'
    linarith
  · intro h
    have h' : (800 : ℚ) * pageBreakTrigger < (yU : ℚ) + 800 * lineH := by linarith
    rw [← pageBreakTriggerU_eq] at h'
    have h'' : ((pageBreakTriggerU : ℚ)) < ((yU + lineHU : ℕ) : ℚ) := by
      push_cast [lineHU_eq]; linarith
    exact_mod_cast h''

/-- On the reachable ordinates `t_margin + m * lineH`, the page-break rule
fires exactly when the current page already holds `linesPerPage` lines. -/
theorem pageBreakHit_linesPerPage (m : ℕ) :
    pageBreakHit (tMarginU + lineHU * m) = true ↔ linesPerPage ≤ m := by
  simp only [pageBreakHit, pageBreakTriggerU, tMarginU, lineHU, linesPerPage,
    decide_eq_true_eq]
  omega

/-- Pagination loses no line and invents none: flattening the pages gives
back the wrapped lines handed to `pagGo`. -/
theorem pagGo_flatten (lines : List String) : ∀ (yU : ℕ) cur done,
    (pagGo lines yU cur done).flatten = done.flatten ++ cur ++ lines := by
  induction lines with
  | nil =>
    intro yU cur done
    simp [pagGo]
  | cons l rest ih =>
    intro yU cur done
    simp only [pagGo]
    by_cases h : pageBreakHit yU
    · simp only [h, if_true, ih, List.flatten_append, List.flatten_cons, List.flatten_nil]
      simp
    · simp only [h, if_false, Bool.false_eq_true, ih]
      simp

/-- Flatten version for `paginate`. -/
theorem paginate_flatten (lines : List String) : (paginate lines).flatten = lines := by
  simpa using pagGo_flatten lines tMarginU [] []

/-- Page-count recurrence of the pagination loop: starting from a page
already holding `cur` lines (at the corresponding ordinate), processing
`lines` produces `ceil((cur.length + lines.length) / 26)` pages beyond
`done` (one page when nothing at all is printed). -/
theorem pagGo_length (lines : List String) : ∀ (cur : List String) done,
    cur.length ≤ linesPerPage →
    (pagGo lines (tMarginU + lineHU * cur.length) cur done).length
      = done.length +
        (if cur.length + lines.length = 0 then 1
         else (cur.length + lines.length + (linesPerPage - 1)) / linesPerPage) := by
  induction lines with
  | nil =>
    intro cur done h
    simp only [pagGo, List.length_append, List.length_cons, List.length_nil,
      linesPerPage, Nat.add_zero] at h ⊢
    split
    · omega
    · omega
  | cons l rest ih =>
    intro cur done h
    simp only [pagGo]
    by_cases hb : pageBreakHit (tMarginU + lineHU * cur.length)
    · have h26 : linesPerPage ≤ cur.length := (pageBreakHit_linesPerPage _).mp hb
      rw [if_pos hb]
      have h1 : tMarginU + lineHU = tMarginU + lineHU * ([l].length) := by simp
      rw [h1, ih [l] (done ++ [cur]) (by simp [linesPerPage])]
      have he : cur.length = linesPerPage := le_antisymm h h26
      rw [if_neg (by simp [he, linesPerPage]), if_neg (by simp)]
      simp only [List.length_append, List.length_cons, List.length_nil, he, linesPerPage]
      omega
    · have h26 : ¬ linesPerPage ≤ cur.length := fun hc =>
        hb ((pageBreakHit_linesPerPage _).mpr hc)
      rw [if_neg hb]
      have h1 : tMarginU + lineHU * cur.length + lineHU
          = tMarginU + lineHU * ((cur ++ [l]).length) := by
        simp only [List.length_append, List.length_cons, List.length_nil, Nat.mul_succ,
          Nat.mul_add, Nat.mul_one]
        omega
      rw [h1, ih (cur ++ [l]) done (by
        simp only [List.length_append, List.length_cons, List.length_nil, linesPerPage] at h26 ⊢
        omega)]
      rw [if_neg (by simp), if_neg (by simp)]
      simp only [List.length_append, List.length_cons, List.length_nil, linesPerPage]
      omega

/-- Page count of the paginated document: the ceiling of the number of
wrapped lines over the per-page capacity (and a single page when there are
no lines at all, from the initial `add_page`). -/
theorem paginate_length (lines : List String) :
    (paginate lines).length
      = if lines.length = 0 then 1
        else (lines.length + (linesPerPage - 1)) / linesPerPage := by
  have h := pagGo_length lines [] [] (by simp)
  simp only [List.length_nil, Nat.mul_zero, Nat.add_zero, Nat.zero_add] at h
  simpa [paginate] using h

theorem mcGo_acc_extends (fuel : ℕ) : ∀ s nb i j sep l acc,
    ∃ tail, mcGo fuel s nb i j sep l acc = acc ++ tail := by
  induction fuel with
  | zero => intro s nb i j sep l acc; exact ⟨_, rfl⟩
  | succ fuel ih =>
    intro s nb i j sep l acc
    simp only [mcGo]
    split
    · split
      · obtain ⟨t, ht⟩ := ih s nb (i + 1) (i + 1) none 0 (acc ++ [substrStr s j (i - j)])
        exact ⟨_, by rw [ht, List.append_assoc]⟩
      · split
        · split
          · split
            · obtain ⟨t, ht⟩ := ih s nb (i + 1) (i + 1) none 0 (acc ++ [substrStr s j (i + 1 - j)])
              exact ⟨_, by rw [ht, List.append_assoc]⟩
            · obtain ⟨t, ht⟩ := ih s nb i i none 0 (acc ++ [substrStr s j (i - j)])
              exact ⟨_, by rw [ht, List.append_assoc]⟩
          · obtain ⟨t, ht⟩ := ih s nb _ _ none 0 (acc ++ [substrStr s j (_ - j)])
            exact ⟨_, by rw [ht, List.append_assoc]⟩
        · exact ih s nb (i + 1) j _ _ acc
    · exact ⟨_, rfl⟩

theorem substrStr_chars {s : List Char} {j n : ℕ} : ∀ c ∈ (substrStr s j n).data, c ∈ s := by
  intro c hc
  simp only [substrStr] at hc
  exact List.drop_subset _ _ (List.take_subset _ _ hc)

theorem mem_substrStr {s : List Char} {j X idx : ℕ} (h1 : j ≤ idx) (h2 : idx < X)
    (h3 : X ≤ s.length) : s.getD idx ' ' ∈ (substrStr s j (X - j)).data := by
  have hidx : idx < s.length := lt_of_lt_of_le h2 h3
  have hlen : idx - j < ((s.drop j).take (X - j)).length := by
    simp only [List.length_take, List.length_drop]
    omega
  have hval : ((s.drop j).take (X - j))[idx - j] = s.getD idx ' ' := by
    rw [List.getElem_take, List.getElem_drop, List.getD_eq_getElem _ _ hidx]
    congr 1
    omega
  simp only [substrStr]
  exact hval ▸ List.getElem_mem hlen

theorem mcGo_chars_step {s : List Char} {acc : List String} {ln piece : String}
    (hrec : ln ∈ acc ++ [piece] ∨ ∀ c ∈ ln.data, c ∈ s)
    (hpiece : ∀ c ∈ piece.data, c ∈ s) :
    ln ∈ acc ∨ ∀ c ∈ ln.data, c ∈ s := by
  rcases hrec with h | h
  · rcases List.mem_append.mp h with h' | h'
    · exact Or.inl h'
    · exact Or.inr ((List.mem_singleton.mp h') ▸ hpiece)
  · exact Or.inr h

theorem mcGo_chars (fuel : ℕ) : ∀ s nb i j sep l acc ln,
    ln ∈ mcGo fuel s nb i j sep l acc →
    ln ∈ acc ∨ ∀ c ∈ ln.data, c ∈ s := by
  induction fuel with
  | zero =>
    intro s nb i j sep l acc ln h
    simp only [mcGo] at h
    exact mcGo_chars_step (Or.inl h) substrStr_chars
  | succ fuel ih =>
    intro s nb i j sep l acc ln h
    simp only [mcGo] at h
    split at h
    · split at h
      · exact mcGo_chars_step (ih _ _ _ _ _ _ _ _ h) substrStr_chars
      · split at h
        · split at h
          · split at h
            · exact mcGo_chars_step (ih _ _ _ _ _ _ _ _ h) substrStr_chars
            · exact mcGo_chars_step (ih _ _ _ _ _ _ _ _ h) substrStr_chars
          · exact mcGo_chars_step (ih _ _ _ _ _ _ _ _ h) substrStr_chars
        · exact ih _ _ _ _ _ _ _ _ h
    · exact mcGo_chars_step (Or.inl h) substrStr_chars

theorem mem_mcGo_of_mem_acc {fuel : ℕ} {s nb i j sep l acc ln} (h : ln ∈ acc) :
    ln ∈ mcGo fuel s nb i j sep l acc := by
  obtain ⟨t, ht⟩ := mcGo_acc_extends fuel s nb i j sep l acc
  rw [ht]
  exact List.mem_append_left _ h

theorem self_mem_acc_append (acc : List String) (p : String) : p ∈ acc ++ [p] :=
  List.mem_append_right _ (List.mem_singleton.mpr rfl)

theorem mcGo_covers (fuel : ℕ) : ∀ s nb i j sep l acc,
    nb ≤ s.length → j ≤ i →
    (∀ sp, sep = some sp → j ≤ sp ∧ sp < nb ∧ s.getD sp ' ' = ' ') →
    ∀ idx, j ≤ idx → idx < nb →
    s.getD idx ' ' ≠ ' ' → s.getD idx ' ' ≠ '\n' →
    ∃ ln, ln ∈ mcGo fuel s nb i j sep l acc ∧ s.getD idx ' ' ∈ ln.data := by
  induction fuel with
  | zero =>
    intro s nb i j sep l acc hnb _hji _hsep idx hj hidxnb _hsp _hnl
    exact ⟨substrStr s j (nb - j), by simp [mcGo], mem_substrStr hj hidxnb hnb⟩
  | succ fuel ih =>
    intro s nb i j sep l acc hnb hji hsep idx hj hidxnb hsp hnl
    simp only [mcGo]
    split
    case isFalse hi =>
      exact ⟨substrStr s j (nb - j), self_mem_acc_append acc _, mem_substrStr hj hidxnb hnb⟩
    case isTrue hi =>
      split
      case isTrue hc =>
        by_cases hlt : idx < i
        · exact ⟨substrStr s j (i - j),
            mem_mcGo_of_mem_acc (self_mem_acc_append acc _),
            mem_substrStr hj hlt (le_trans (le_of_lt hi) hnb)⟩
        · have hgt : i + 1 ≤ idx := by
            rcases Nat.lt_or_ge idx (i + 1) with h' | h'
            · exact absurd (by omega : idx = i) (fun he => hnl (he ▸ hc))
            · exact h'
          exact ih s nb (i + 1) (i + 1) none 0 _ hnb le_rfl (by simp)
            idx hgt hidxnb hsp hnl
      case isFalse hc =>
        split
        case isTrue hov =>
          split
          case h_1 heq =>
            -- sep' = none
            split
            case isTrue hij =>
              by_cases hlt : idx < i + 1
              · exact ⟨substrStr s j (i + 1 - j),
                  mem_mcGo_of_mem_acc (self_mem_acc_append acc _),
                  mem_substrStr hj hlt (by omega)⟩
              · exact ih s nb (i + 1) (i + 1) none 0 _ hnb le_rfl (by simp)
                  idx (by omega) hidxnb hsp hnl
            case isFalse hij =>
              by_cases hlt : idx < i
              · exact ⟨substrStr s j (i - j),
                  mem_mcGo_of_mem_acc (self_mem_acc_append acc _),
                  mem_substrStr hj hlt (by omega)⟩
              · exact ih s nb i i none 0 _ hnb le_rfl (by simp)
                  idx (by omega) hidxnb hsp hnl
          case h_2 sp heq =>
            -- sep' = some sp
            have hspinv : j ≤ sp ∧ sp < nb ∧ s.getD sp ' ' = ' ' := by
              by_cases hc' : s.getD i ' ' = ' '
              · rw [if_pos hc'] at heq
                have : sp = i := by injection heq; omega
                exact this ▸ ⟨hji, hi, hc'⟩
              · rw [if_neg hc'] at heq
                exact hsep sp heq
            rcases hspinv with ⟨hjsp, hspnb, hspspace⟩
            rcases Nat.lt_trichotomy idx sp with hlt | heq' | hgt
            · exact ⟨substrStr s j (sp - j),
                mem_mcGo_of_mem_acc (self_mem_acc_append acc _),
                mem_substrStr hj hlt (by omega)⟩
            · exact absurd (heq' ▸ hspspace) hsp
            · exact ih s nb (sp + 1) (sp + 1) none 0 _ hnb le_rfl (by simp)
                idx (by omega) hidxnb hsp hnl
        case isFalse hov =>
          refine ih s nb (i + 1) j _ _ acc hnb (by omega) ?_ idx hj hidxnb hsp hnl
          intro sp heq
          by_cases hc' : s.getD i ' ' = ' '
          · rw [if_pos hc'] at heq
            have : sp = i := by injection heq; omega
            exact this ▸ ⟨hji, hi, hc'⟩
          · rw [if_neg hc'] at heq
            exact hsep sp heq

theorem multiCellLines_chars (txt : String) :
    ∀ ln ∈ multiCellLines txt, ∀ c ∈ ln.data, c ∈ txt.data := by
  intro ln hln c hc
  simp only [multiCellLines] at hln
  rcases mcGo_chars _ _ _ _ _ _ _ _ ln hln with h | h
  · simp at h
  · exact List.mem_of_mem_filter (h c hc)

theorem multiCellLines_covers {txt : String} {c : Char}
    (hmem : c ∈ txt.data) (hsp : c ≠ ' ') (hnl : c ≠ '\n') (hcr : c ≠ '\r') :
    ∃ ln, ln ∈ multiCellLines txt ∧ c ∈ ln.data := by
  have hs : c ∈ txt.data.filter (fun c => c ≠ '\r') :=
    List.mem_filter.mpr ⟨hmem, by simp [hcr]⟩
  obtain ⟨idx, hidx, hval⟩ := List.getElem_of_mem hs
  set s := txt.data.filter (fun c => c ≠ '\r') with hsdef
  have hgd : s.getD idx ' ' = c := by
    rw [List.getD_eq_getElem _ _ hidx, hval]
  have hnb : idx < (if 0 < s.length ∧ s.getLast? = some '\n' then s.length - 1 else s.length) := by
    split
    case isTrue h =>
      rcases h with ⟨hpos, hlast⟩
      have hlast' : s[s.length - 1] = '\n' := by
        have := List.getLast?_eq_getElem? s
        rw [hlast] at this
        have h2 := this.symm
        rw [List.getElem?_eq_getElem (by omega)] at h2
        injection h2 with h3
      by_cases he : idx = s.length - 1
      · subst he
        rw [hval] at hlast'
        exact absurd hlast' hnl
      · omega
    case isFalse h => exact hidx
  have := mcGo_covers (2 * s.length + 1) s _ 0 0 none 0 []
    (by split <;> omega) le_rfl (by simp)
    idx (Nat.zero_le _) hnb (by rw [hgd]; exact hsp) (by rw [hgd]; exact hnl)
  obtain ⟨ln, hln, hcln⟩ := this
  refine ⟨ln, ?_, hgd ▸ hcln⟩
  simp only [multiCellLines]
  exact hln

theorem char_toNat_injective : Function.Injective Char.toNat := by
  intro a b h
  exact Char.ext (UInt32.ext h)

theorem encodeLatin1_ok_of {cs : List Char} (h : ∀ c ∈ cs, c.toNat ≤ 255) :
    encodeLatin1 cs = .ok (cs.map Char.toNat) := dif_pos h

theorem encodeLatin1_error_of {cs : List Char} (h : ¬ ∀ c ∈ cs, c.toNat ≤ 255) :
    encodeLatin1 cs = .error .unicodeEncodeError := dif_neg h

theorem encodeLatin1_ok_iff {cs : List Char} :
    (∃ b, encodeLatin1 cs = .ok b) ↔ ∀ c ∈ cs, c.toNat ≤ 255 := by
  unfold encodeLatin1
  split
  case isTrue h => exact ⟨fun _ => h, fun _ => ⟨_, rfl⟩⟩
  case isFalse h =>
    constructor
    · rintro ⟨b, hb⟩
      cases hb
    · intro h'
      exact absurd h' h

theorem escapeChar_latin1 {c d : Char} (hd : d ∈ escapeChar c) (hc : c.toNat ≤ 255) :
    d.toNat ≤ 255 := by
  unfold escapeChar at hd
  split at hd
  · simp only [List.mem_cons, List.not_mem_nil, or_false] at hd
    rcases hd with rfl | rfl <;> decide
  · split at hd
    · simp only [List.mem_cons, List.not_mem_nil, or_false] at hd
      rcases hd with rfl | rfl <;> decide
    · split at hd
      · simp only [List.mem_cons, List.not_mem_nil, or_false] at hd
        rcases hd with rfl | rfl <;> decide
      · split at hd
        · simp only [List.mem_cons, List.not_mem_nil, or_false] at hd
          rcases hd with rfl | rfl <;> decide
        · simp only [List.mem_cons, List.not_mem_nil, or_false] at hd
          subst hd
          exact hc

theorem escapeChar_self {c : Char} (h : 255 < c.toNat) : escapeChar c = [c] := by
  unfold escapeChar
  rw [if_neg, if_neg, if_neg, if_neg]
  · intro hc; subst hc; exact absurd h (by decide)
  · intro hc; subst hc; exact absurd h (by decide)
  · intro hc; subst hc; exact absurd h (by decide)
  · intro hc; subst hc; exact absurd h (by decide)

theorem lineChars_latin1 {ln : String} (h : ∀ c ∈ ln.data, c.toNat ≤ 255) :
    ∀ c ∈ lineChars ln, c.toNat ≤ 255 := by
  intro c hc
  unfold lineChars at hc
  obtain ⟨piece, hpiece, hcp⟩ := List.mem_flatten.mp hc
  obtain ⟨c', hc', rfl⟩ := List.mem_map.mp hpiece
  exact escapeChar_latin1 hcp (h c' hc')

theorem pageStream_latin1 {pg : List String} (h : ∀ ln ∈ pg, ∀ c ∈ ln.data, c.toNat ≤ 255) :
    ∀ c ∈ pageStream pg, c.toNat ≤ 255 := by
  intro c hc
  unfold pageStream at hc
  simp only [List.mem_append] at hc
  rcases hc with (hc | hc) | hc
  · revert hc
    have : ∀ c ∈ "BT /F1 12.00 Tf\n".data, c.toNat ≤ 255 := by decide
    exact this c
  · obtain ⟨piece, hpiece, hcp⟩ := List.mem_flatten.mp hc
    obtain ⟨ln, hln, rfl⟩ := List.mem_map.mp hpiece
    simp only [List.mem_append] at hcp
    rcases hcp with (hcp | hcp) | hcp
    · revert hcp
      have : ∀ c ∈ "(".data, c.toNat ≤ 255 := by decide
      exact this c
    · exact lineChars_latin1 (h ln hln) c hcp
    · revert hcp
      have : ∀ c ∈ ") Tj\n".data, c.toNat ≤ 255 := by decide
      exact this c
  · revert hc
    have : ∀ c ∈ "ET\n".data, c.toNat ≤ 255 := by decide
    exact this c

theorem pdfDocChars_latin1 {pages : List (List String)} {now : String}
    (hp : ∀ pg ∈ pages, ∀ ln ∈ pg, ∀ c ∈ ln.data, c.toNat ≤ 255)
    (hn : ∀ c ∈ now.data, c.toNat ≤ 255) :
    ∀ c ∈ pdfDocChars pages now, c.toNat ≤ 255 := by
  intro c hc
  unfold pdfDocChars at hc
  simp only [List.mem_append] at hc
  rcases hc with (((hc | hc) | hc) | hc) | hc
  · revert hc
    have : ∀ c ∈ "%PDF-1.3\n".data, c.toNat ≤ 255 := by decide
    exact this c
  · obtain ⟨piece, hpiece, hcp⟩ := List.mem_flatten.mp hc
    obtain ⟨pg, hpg, rfl⟩ := List.mem_map.mp hpiece
    exact pageStream_latin1 (hp pg hpg) c hcp
  · revert hc
    have : ∀ c ∈ "/Producer (PyFPDF 1.7.2 http://pyfpdf.googlecode.com/)\n/CreationDate (D:".data,
        c.toNat ≤ 255 := by decide
    exact this c
  · exact hn c hc
  · revert hc
    have : ∀ c ∈ ")\ntrailer\n%%EOF\n".data, c.toNat ≤ 255 := by decide
    exact this c

theorem mem_pdfDocChars {pages : List (List String)} {now : String} {pg : List String}
    {ln : String} {c : Char} (hpg : pg ∈ pages) (hln : ln ∈ pg) (hc : c ∈ ln.data)
    (hesc : escapeChar c = [c]) : c ∈ pdfDocChars pages now := by
  unfold pdfDocChars
  simp only [List.mem_append]
  left; left; left; right
  refine List.mem_flatten.mpr ⟨pageStream pg, List.mem_map_of_mem _ hpg, ?_⟩
  unfold pageStream
  simp only [List.mem_append]
  left; right
  refine List.mem_flatten.mpr ⟨_, List.mem_map_of_mem _ hln, ?_⟩
  simp only [List.mem_append]
  left; right
  unfold lineChars
  refine List.mem_flatten.mpr ⟨escapeChar c, List.mem_map_of_mem _ hc, ?_⟩
  rw [hesc]
  exact List.mem_singleton.mpr rfl

theorem placeholderText_latin1 : ∀ c ∈ placeholderText.data, c.toNat ≤ 255 := by decide

theorem shownText_latin1 {text : String} (h : ∀ c ∈ text.data, c.toNat ≤ 255) :
    ∀ c ∈ (shownText text).data, c.toNat ≤ 255 := by
  unfold shownText
  split
  · exact placeholderText_latin1
  · exact h

theorem shownText_latin1_iff (text : String) :
    (∀ c ∈ (shownText text).data, c.toNat ≤ 255) ↔ (∀ c ∈ text.data, c.toNat ≤ 255) := by
  unfold shownText
  split
  case isTrue h =>
    subst h
    constructor
    · intro _ c hc
      have hnil : ("" : String).data = [] := rfl
      rw [hnil] at hc
      cases hc
    · intro _
      exact placeholderText_latin1
  case isFalse h => exact Iff.rfl

theorem documentPages_latin1 {text : String}
    (h : ∀ c ∈ (shownText text).data, c.toNat ≤ 255) :
    ∀ pg ∈ documentPages text, ∀ ln ∈ pg, ∀ c ∈ ln.data, c.toNat ≤ 255 := by
  intro pg hpg ln hln c hc
  unfold documentPages at hpg
  have hlnmem : ln ∈ multiCellLines (shownText text) := by
    rw [← paginate_flatten (multiCellLines (shownText text))]
    exact List.mem_flatten.mpr ⟨pg, hpg, hln⟩
  exact h c (multiCellLines_chars _ ln hlnmem c hc)

theorem renderDocument_ok_iff {text now : String}
    (hnow : ∀ c ∈ now.data, c.toNat ≤ 255) :
    (∃ b, renderDocument text now = .ok b) ↔ ∀ c ∈ text.data, c.toNat ≤ 255 := by
  unfold renderDocument
  rw [encodeLatin1_ok_iff]
  conv_rhs => rw [← shownText_latin1_iff text]
  constructor
  · intro hdoc c hc
    by_contra hgt
    push_neg at hgt
    have hsp : c ≠ ' ' := by intro he; subst he; exact absurd hgt (by decide)
    have hnl : c ≠ '\n' := by intro he; subst he; exact absurd hgt (by decide)
    have hcr : c ≠ '\r' := by intro he; subst he; exact absurd hgt (by decide)
    obtain ⟨ln, hln, hcln⟩ := multiCellLines_covers hc hsp hnl hcr
    rw [← paginate_flatten (multiCellLines (shownText text))] at hln
    obtain ⟨pg, hpg, hlnpg⟩ := List.mem_flatten.mp hln
    have hmem : c ∈ pdfDocChars (documentPages text) now :=
      mem_pdfDocChars (by unfold documentPages; exact hpg) hlnpg hcln (escapeChar_self hgt)
    exact absurd (hdoc c hmem) (by omega)
  · intro htext
    exact pdfDocChars_latin1 (documentPages_latin1 htext) hnow

theorem pyStrip_of_all_space {s : String} (h : ∀ c ∈ s.data, pyIsSpace c = true) :
    pyStrip s = "" := by
  unfold pyStrip
  have h1 : s.data.dropWhile pyIsSpace = [] := List.dropWhile_eq_nil_iff.mpr h
  rw [h1]
  rfl

theorem pdfDocChars_now_inj {pages : List (List String)} {now now' : String}
    (h : pdfDocChars pages now = pdfDocChars pages now') : now = now' := by
  unfold pdfDocChars at h
  have h2 := List.append_cancel_right h
  have h3 := List.append_cancel_left h2
  cases now with
  | mk d =>
    cases now' with
    | mk d' =>
      exact congrArg String.mk h3

/-- Claim C1 (code bug): the claim states the temporary file is removed on
every exit path, but `os.remove(tmp_path)` at line 149 runs only after
decoding and recognition both succeeded; when `sf.read` raises
(`DecodeError`) or the recognizer fails (`RecognitionError`), the
exception propagates before the removal and the temporary file stays on
disk.  This theorem exhibits both leaking paths: the final filesystem
state still contains the file created for the request. -/
theorem C1_temp_file_leaked_on_failure (sf_read : Decoder) (engine : Engine)
    (now : String) (fileBytes : List ℕ) (s : FsState) :
    (sf_read fileBytes = Except.error () →
      audio_to_pdf sf_read engine now fileBytes s
        = (Except.error PipelineError.decodeError,
           ⟨s.tmpFiles ++ [s.nextName], s.nextName + 1⟩) ∧
      s.nextName ∈ (audio_to_pdf sf_read engine now fileBytes s).2.tmpFiles) ∧
    (∀ d, sf_read fileBytes = Except.ok d →
      engine (normalizeAudio d).samplerate (recognizerInput d) = Except.error () →
      audio_to_pdf sf_read engine now fileBytes s
        = (Except.error PipelineError.recognitionError,
           ⟨s.tmpFiles ++ [s.nextName], s.nextName + 1⟩) ∧
      s.nextName ∈ (audio_to_pdf sf_read engine now fileBytes s).2.tmpFiles) := by
  constructor
  · intro h
    have heq : audio_to_pdf sf_read engine now fileBytes s
        = (Except.error PipelineError.decodeError,
           ⟨s.tmpFiles ++ [s.nextName], s.nextName + 1⟩) := by
      simp only [audio_to_pdf, h]
    exact ⟨heq, by rw [heq]; simp⟩
  · intro d hd he
    have heq : audio_to_pdf sf_read engine now fileBytes s
        = (Except.error PipelineError.recognitionError,
           ⟨s.tmpFiles ++ [s.nextName], s.nextName + 1⟩) := by
      simp only [audio_to_pdf, hd, he]
    exact ⟨heq, by rw [heq]; simp⟩

/-- Witness for C1: a concrete run on an input the decoder rejects leaves
the temporary file (name 0) on disk and fails with a decode error. -/
theorem C1_temp_file_leaked_on_failure_witness :
    ((fun _ => Except.error () : Decoder) [1, 2, 3] = Except.error ()) ∧
    audio_to_pdf (fun _ => Except.error ()) (fun _ _ => Except.ok "") "20250101120000"
        [1, 2, 3] ⟨[], 0⟩
      = (Except.error PipelineError.decodeError, ⟨[0], 1⟩) ∧
    0 ∈ (audio_to_pdf (fun _ => Except.error ()) (fun _ _ => Except.ok "")
        "20250101120000" [1, 2, 3] ⟨[], 0⟩).2.tmpFiles := by
  refine ⟨rfl, ?_⟩
  have h := (C1_temp_file_leaked_on_failure (fun _ => Except.error ())
    (fun _ _ => Except.ok "") "20250101120000" [1, 2, 3] ⟨[], 0⟩).1 rfl
  exact h

/-- Counterexample for C2: the transcript "€" (a printable Unicode
character outside Latin-1) makes rendering fail with `UnicodeEncodeError`
from `pdf.output(dest="S").encode("latin1")`, so text content can cause a
render failure and no fallback glyph is substituted. -/
theorem C2_counterexample :
    renderDocument "€" "20250101120000" = Except.error RenderError.unicodeEncodeError := by
  decide

/-- Claim C2 (amended): rendering succeeds exactly when every character of
the transcript is Latin-1 encodable (code point at most 255); a character
above U+00FF causes a `UnicodeEncodeError` render failure, with no
fallback substitution. -/
theorem C2_render_ok_iff_latin1 (text now : String)
    (hnow : ∀ c ∈ now.data, c.toNat ≤ 255) :
    (∃ b, renderDocument text now = Except.ok b) ↔ ∀ c ∈ text.data, c.toNat ≤ 255 :=
  renderDocument_ok_iff hnow

/-- Witness for C2 (amended): with an ASCII timestamp, an all-ASCII
transcript renders successfully. -/
theorem C2_render_ok_iff_latin1_witness :
    (∀ c ∈ ("20250101120000" : String).data, c.toNat ≤ 255) ∧
    (∃ b, renderDocument "hello" "20250101120000" = Except.ok b) :=
  ⟨by decide,
   (C2_render_ok_iff_latin1 "hello" "20250101120000" (by decide)).mpr (by decide)⟩

/-- Counterexample for C3: rendering the same non-empty transcript twice
with identical layout parameters but at two different wall-clock seconds
yields different byte streams, because pyfpdf stamps
`/CreationDate (D:<datetime.now()>)` into the document. -/
theorem C3_counterexample :
    renderDocument "hello" "20250101120000" ≠ renderDocument "hello" "20250101120001" := by
  decide

/-- Claim C3 (amended): rendering is a deterministic function of the
transcript text and the creation timestamp; for a Latin-1 transcript, two
renders of the same text are byte-identical exactly when the embedded
timestamps are equal. -/
theorem C3_render_deterministic_given_timestamp (text now now' : String)
    (ht : ∀ c ∈ text.data, c.toNat ≤ 255)
    (hn : ∀ c ∈ now.data, c.toNat ≤ 255) (hn' : ∀ c ∈ now'.data, c.toNat ≤ 255) :
    renderDocument text now = renderDocument text now' ↔ now = now' := by
  constructor
  · intro h
    unfold renderDocument at h
    rw [encodeLatin1_ok_of (pdfDocChars_latin1 (documentPages_latin1
          ((shownText_latin1_iff text).mpr ht)) hn),
        encodeLatin1_ok_of (pdfDocChars_latin1 (documentPages_latin1
          ((shownText_latin1_iff text).mpr ht)) hn')] at h
    have h2 : (pdfDocChars (documentPages text) now).map Char.toNat
        = (pdfDocChars (documentPages text) now').map Char.toNat := by
      injection h
    exact pdfDocChars_now_inj (List.map_injective_iff.mpr char_toNat_injective h2)
  · rintro rfl
    rfl

/-- Witness for C3 (amended): at equal concrete timestamps the rendered
bytes coincide. -/
theorem C3_render_deterministic_given_timestamp_witness :
    renderDocument "hello" "20250101120000" = renderDocument "hello" "20250101120000" :=
  (C3_render_deterministic_given_timestamp "hello" "20250101120000" "20250101120000"
    (by decide) (by decide) (by decide)).mpr rfl

/-- Claim C4: rendering an empty-string transcript yields a single-page
document whose sole content is the fixed placeholder phrase, and the
render is a normal success, not an error. -/
theorem C4_empty_transcript_placeholder (now : String)
    (hnow : ∀ c ∈ now.data, c.toNat ≤ 255) :
    documentPages "" = [[placeholderText]] ∧
    ∃ b, renderDocument "" now = Except.ok b := by
  constructor
  · decide
  · exact (renderDocument_ok_iff hnow).mpr (by decide)

/-- Witness for C4 at a concrete timestamp. -/
theorem C4_empty_transcript_placeholder_witness :
    documentPages "" = [[placeholderText]] ∧
    ∃ b, renderDocument "" "20250101120000" = Except.ok b :=
  C4_empty_transcript_placeholder "20250101120000" (by decide)

/-- Claim C5: for a multi-channel input that decodes successfully (a
rectangular frames-by-channels array), normalization returns a mono
buffer with one sample per frame, each sample the arithmetic mean of the
frame's channel values, and the sample rate passed through unchanged; a
mono input is passed through as is. -/
theorem C5_normalize_mono_mean (ch : ℕ) (frames : List (List ℚ)) (sr : ℕ)
    (_hwf : ∀ f ∈ frames, f.length = ch) (_hch : 0 < ch) :
    (normalizeAudio ⟨AudioArray.multi ch frames, sr⟩).samplerate = sr ∧
    (normalizeAudio ⟨AudioArray.multi ch frames, sr⟩).samples.length = frames.length ∧
    (∀ i, i < frames.length →
      (normalizeAudio ⟨AudioArray.multi ch frames, sr⟩).samples.getD i 0
        = (frames.getD i []).sum / (ch : ℚ)) ∧
    (∀ (samples : List ℚ) (sr' : ℕ),
      normalizeAudio ⟨AudioArray.mono samples, sr'⟩ = ⟨samples, sr'⟩) := by
  refine ⟨rfl, by simp [normalizeAudio, ensureMono], ?_, fun _ _ => rfl⟩
  intro i hi
  simp only [normalizeAudio, ensureMono]
  rw [List.getD_eq_getElem _ _ (by simpa using hi), List.getElem_map,
    List.getD_eq_getElem _ _ hi]

/-- Witness for C5 on a concrete two-channel buffer. -/
theorem C5_normalize_mono_mean_witness :
    (∀ f ∈ [[(1 : ℚ), 3], [5, 7]], f.length = 2) ∧ 0 < 2 ∧
    ((normalizeAudio ⟨AudioArray.multi 2 [[(1 : ℚ), 3], [5, 7]], 16000⟩).samplerate = 16000 ∧
     (normalizeAudio ⟨AudioArray.multi 2 [[(1 : ℚ), 3], [5, 7]], 16000⟩).samples.length = 2 ∧
     (∀ i, i < 2 →
       (normalizeAudio ⟨AudioArray.multi 2 [[(1 : ℚ), 3], [5, 7]], 16000⟩).samples.getD i 0
         = ([[(1 : ℚ), 3], [5, 7]].getD i []).sum / (2 : ℚ)) ∧
     (∀ (samples : List ℚ) (sr' : ℕ),
       normalizeAudio ⟨AudioArray.mono samples, sr'⟩ = ⟨samples, sr'⟩)) := by
  refine ⟨by decide, by decide, ?_⟩
  have h := C5_normalize_mono_mean 2 [[(1 : ℚ), 3], [5, 7]] 16000 (by decide) (by decide)
  simpa using h

/-- Claim C6: stereo mixdown commutes with swapping the two channels:
reversing each two-element frame before the mean leaves the mono result
unchanged. -/
theorem C6_mixdown_swap_commutes (frames : List (List ℚ))
    (_hstereo : ∀ f ∈ frames, f.length = 2) :
    ensureMono (AudioArray.multi 2 (frames.map List.reverse))
      = ensureMono (AudioArray.multi 2 frames) := by
  simp only [ensureMono, List.map_map]
  refine List.map_congr_left ?_
  intro f _
  simp [List.sum_reverse]

/-- Witness for C6 on a concrete stereo buffer. -/
theorem C6_mixdown_swap_commutes_witness :
    (∀ f ∈ [[(1 : ℚ), 2]], f.length = 2) ∧
    ensureMono (AudioArray.multi 2 ([[(1 : ℚ), 2]].map List.reverse))
      = ensureMono (AudioArray.multi 2 [[(1 : ℚ), 2]]) :=
  ⟨by decide, C6_mixdown_swap_commutes [[(1 : ℚ), 2]] (by decide)⟩

/-- Claim C7: every run either fails with the first failing stage's error
(decode, recognition, or render — the pipeline aborts there) or returns
the complete serialized document; on success the returned bytes are the
render of the full transcript and pagination covers every wrapped line
(no truncated or partial document). -/
theorem C7_first_error_or_complete_document (sf_read : Decoder) (engine : Engine)
    (now : String) (fileBytes : List ℕ) (s : FsState) :
    (sf_read fileBytes = Except.error () ∧
      (audio_to_pdf sf_read engine now fileBytes s).1
        = Except.error PipelineError.decodeError) ∨
    (∃ d, sf_read fileBytes = Except.ok d ∧
      engine (normalizeAudio d).samplerate (recognizerInput d) = Except.error () ∧
      (audio_to_pdf sf_read engine now fileBytes s).1
        = Except.error PipelineError.recognitionError) ∨
    (∃ d raw, sf_read fileBytes = Except.ok d ∧
      engine (normalizeAudio d).samplerate (recognizerInput d) = Except.ok raw ∧
      renderDocument (pyStrip raw) now = Except.error RenderError.unicodeEncodeError ∧
      (audio_to_pdf sf_read engine now fileBytes s).1
        = Except.error PipelineError.renderError) ∨
    (∃ d raw bytes, sf_read fileBytes = Except.ok d ∧
      engine (normalizeAudio d).samplerate (recognizerInput d) = Except.ok raw ∧
      renderDocument (pyStrip raw) now = Except.ok bytes ∧
      (audio_to_pdf sf_read engine now fileBytes s).1 = Except.ok bytes ∧
      (documentPages (pyStrip raw)).flatten = multiCellLines (shownText (pyStrip raw))) := by
  cases hdec : sf_read fileBytes with
  | error e =>
    cases e
    exact Or.inl ⟨rfl, by simp only [audio_to_pdf, hdec]⟩
  | ok d =>
    cases heng : engine (normalizeAudio d).samplerate (recognizerInput d) with
    | error e =>
      cases e
      exact Or.inr (Or.inl ⟨d, rfl, heng, by simp only [audio_to_pdf, hdec, heng]⟩)
    | ok raw =>
      cases hrender : renderDocument (pyStrip raw) now with
      | error re =>
        cases re
        exact Or.inr (Or.inr (Or.inl ⟨d, raw, rfl, heng, hrender,
          by simp only [audio_to_pdf, hdec, heng, hrender]⟩))
      | ok bytes =>
        exact Or.inr (Or.inr (Or.inr ⟨d, raw, bytes, rfl, heng, hrender,
          by simp only [audio_to_pdf, hdec, heng, hrender],
          paginate_flatten _⟩))

/-- Claim C8: when the wrapped transcript exceeds one page's capacity, the
page count is the ceiling of the number of wrapped lines divided by the
per-page line capacity (the natural-number expression below is
`ceil(lines / linesPerPage)`). -/
theorem C8_page_count_is_ceil (text : String) (hne : text ≠ "")
    (hlong : linesPerPage < (multiCellLines text).length) :
    (documentPages text).length
      = ((multiCellLines text).length + (linesPerPage - 1)) / linesPerPage := by
  simp only [documentPages, shownText, if_neg hne]
  rw [paginate_length, if_neg (by simp only [linesPerPage] at hlong; omega)]

/-- Witness for C8: a transcript wrapping to 27 lines paginates to 2 pages
(`ceil(27 / 26)`). -/
theorem C8_page_count_is_ceil_witness :
    (("a\na\na\na\na\na\na\na\na\na\na\na\na\na\na\na\na\na\na\na\na\na\na\na\na\na\na" : String) ≠ "" ∧
     linesPerPage < (multiCellLines
       "a\na\na\na\na\na\na\na\na\na\na\na\na\na\na\na\na\na\na\na\na\na\na\na\na\na\na").length) ∧
    (documentPages "a\na\na\na\na\na\na\na\na\na\na\na\na\na\na\na\na\na\na\na\na\na\na\na\na\na\na").length
      = ((multiCellLines
          "a\na\na\na\na\na\na\na\na\na\na\na\na\na\na\na\na\na\na\na\na\na\na\na\na\na\na").length
         + (linesPerPage - 1)) / linesPerPage := by
  refine ⟨⟨by decide, by decide⟩, ?_⟩
  exact C8_page_count_is_ceil _ (by decide) (by decide)

/-- Claim C9: a whitespace-only recognizer result is stripped to the empty
string before the emptiness test, so it is rendered exactly like an empty
transcript: the placeholder phrase, the same pages. -/
theorem C9_whitespace_only_like_empty (raw : String)
    (h : ∀ c ∈ raw.data, pyIsSpace c = true) :
    pyStrip raw = "" ∧ shownText (pyStrip raw) = placeholderText ∧
    documentPages (pyStrip raw) = documentPages "" := by
  have h1 := pyStrip_of_all_space h
  refine ⟨h1, ?_, ?_⟩
  · rw [h1]
    decide
  · rw [h1]

/-- Witness for C9 on a concrete whitespace-only transcript. -/
theorem C9_whitespace_only_like_empty_witness :
    (∀ c ∈ (" \t\n " : String).data, pyIsSpace c = true) ∧
    (pyStrip " \t\n " = "" ∧ shownText (pyStrip " \t\n ") = placeholderText ∧
     documentPages (pyStrip " \t\n ") = documentPages "") :=
  ⟨by decide, C9_whitespace_only_like_empty " \t\n " (by decide)⟩

/-- Claim C10: after a successful decode, the byte buffer handed to the
recognizer engine is the raw serialization of the decoded (mixed-down)
float64 sample array — dtype float64 with the normalized samples
unchanged, no 16-bit or 32-bit integer conversion — and the pipeline
consults the engine only at that sample rate and buffer. -/
theorem C10_recognizer_input_raw_float64 (sf_read : Decoder) (fileBytes : List ℕ)
    (d : DecodeOk) (hdec : sf_read fileBytes = Except.ok d) :
    (recognizerInput d).dtype = Dtype.float64 ∧
    (recognizerInput d).dtype ≠ Dtype.int16 ∧
    (recognizerInput d).dtype ≠ Dtype.int32 ∧
    (recognizerInput d).samples = (normalizeAudio d).samples ∧
    (∀ (engine engine' : Engine) (now : String) (s : FsState),
      engine (normalizeAudio d).samplerate (recognizerInput d)
        = engine' (normalizeAudio d).samplerate (recognizerInput d) →
      audio_to_pdf sf_read engine now fileBytes s
        = audio_to_pdf sf_read engine' now fileBytes s) := by
  refine ⟨rfl, fun h => Dtype.noConfusion h, fun h => Dtype.noConfusion h, rfl, ?_⟩
  intro engine engine' now s hagree
  simp only [audio_to_pdf, hdec]
  rw [hagree]

/-- Witness for C10: two engines agreeing on the float64 buffer produce
identical pipeline results on a concrete decoded input. -/
theorem C10_recognizer_input_raw_float64_witness :
    ((fun _ => Except.ok ⟨AudioArray.mono [1], 16000⟩ : Decoder) [9]
       = Except.ok (⟨AudioArray.mono [1], 16000⟩ : DecodeOk)) ∧
    audio_to_pdf (fun _ => Except.ok ⟨AudioArray.mono [1], 16000⟩)
        (fun _ _ => Except.ok "a") "20250101120000" [9] ⟨[], 0⟩
      = audio_to_pdf (fun _ => Except.ok ⟨AudioArray.mono [1], 16000⟩)
        (fun _ p => if p.dtype = Dtype.float64 then Except.ok "a" else Except.error ())
        "20250101120000" [9] ⟨[], 0⟩ := by
  refine ⟨rfl, ?_⟩
  exact (C10_recognizer_input_raw_float64 (fun _ => Except.ok ⟨AudioArray.mono [1], 16000⟩)
    [9] ⟨AudioArray.mono [1], 16000⟩ rfl).2.2.2.2
    (fun _ _ => Except.ok "a")
    (fun _ p => if p.dtype = Dtype.float64 then Except.ok "a" else Except.error ())
    "20250101120000" ⟨[], 0⟩ rfl
